import Mathlib

/-!
Verification of the phase-fair reader/writer lock `PhaseFairRWLock.cpp`.

The lock is a monitor: every public operation holds the single mutex for its
whole critical section, suspending only on condition variables (which release
the mutex atomically).  We therefore embed the lock state as a structure and
every maximal mutex-protected code segment as a pure function on that state.
A blocking operation is split at its condition-variable waits: the code before
the first wait, the code run after each successful wake (predicate true), and
the code run on a timed wait's expiry each become one function.

The writer queue and the free list are raw singly linked lists in the source
(`WriterAlarmClock*` with a `next` field shared by both lists).  We embed the
heap of nodes as a map `nxt : Nat → Option Nat` from node ids to the id stored
in their `next` field, together with the three pointers `sleepersStart`,
`sleepersEnd` and `freeList`.  Allocation of a fresh node (`new
WriterAlarmClock()`) hands out the counter `nextFresh`.  Condition-variable
notifications are returned as an explicit list of `Signal`s.  Dereferencing a
null pointer is modelled by returning `none` from the segment.
-/

namespace PhaseFair

/-- Phase 0 of the lock: readers may run, no writer waiting. -/
def READING : Nat := 0

/-- Phase 1: readers running, but writers waiting. -/
def READING_WRITERS_WAITING : Nat := 1

/-- Phase 2: a writer is being kicked off (handoff). -/
def HANDOFF : Nat := 2

/-- Phase 3: a writer holds the lock. -/
def WRITING : Nat := 3

/-- A condition-variable notification performed by a critical section:
either `_cond.notify_all()` (wake all waiting readers) or
`wac->cond.notify_one()` on the alarm clock of writer node `n`. -/
inductive Signal where
  | readersAll : Signal
  | writer : Nat → Signal

/-- Pointwise update of the next-pointer map (writing `a->next = v`). -/
def upd (f : Nat → Option Nat) (a : Nat) (v : Option Nat) : Nat → Option Nat :=
  fun x => if x = a then v else f x

/-- The state of a `PhaseFairRWLock`: the fields of the C++ class, with the
`WriterAlarmClock` heap represented by `nxt` (the `next` field of every node
id) and the fresh-allocation counter `nextFresh`. -/
structure Lock where
  readersRun : Int
  readersWait : Int
  sleepersStart : Option Nat
  sleepersEnd : Option Nat
  nxt : Nat → Option Nat
  freeList : Option Nat
  phase : Nat
  nextFresh : Nat

/-- The freshly constructed lock (constructor at lines 66-70). -/
def initial : Lock :=
  { readersRun := 0, readersWait := 0, sleepersStart := none, sleepersEnd := none,
    nxt := fun _ => none, freeList := none, phase := 0, nextFresh := 0 }

/-- `getAlarmClock` (lines 295-303): pop the free list, clearing the node's
`next`, or allocate a fresh node (whose constructor sets `next = nullptr`). -/
def getAlarmClock (s : Lock) : Lock × Nat :=
  match s.freeList with
  | some wac => ({ s with freeList := s.nxt wac, nxt := upd s.nxt wac none }, wac)
  | none => ({ s with nextFresh := s.nextFresh + 1, nxt := upd s.nxt s.nextFresh none },
             s.nextFresh)

/-- `returnAlarmClock` (lines 305-309): push the node onto the free list. -/
def returnAlarmClock (s : Lock) (wac : Nat) : Lock :=
  { s with nxt := upd s.nxt wac s.freeList, freeList := some wac }

/-- The scan loop of `removeFromQueue` (lines 320-331): walk the queue from
`w`, and when a node whose `next` is `wac` is found, splice `wac` out and fix
`_sleepersEnd` if `wac` was last.  The loop follows raw pointers; we supply
fuel, which the callers instantiate with `nextFresh` (an upper bound on the
number of nodes ever allocated, hence on any well-formed chain length). -/
def removeFromQueueAux (s : Lock) (wac : Nat) : Nat → Option Nat → Lock
  | _, none => s
  | 0, some _ => s
  | fuel+1, some w =>
    if s.nxt w = some wac then
      { s with nxt := upd s.nxt w (s.nxt wac),
               sleepersEnd := if s.nxt wac = none then some w else s.sleepersEnd }
    else
      removeFromQueueAux s wac fuel (s.nxt w)

/-- `removeFromQueue` (lines 311-332): if `wac` is the queue head, advance
`_sleepersStart` (clearing `_sleepersEnd` if the queue became empty);
otherwise scan for its predecessor. -/
def removeFromQueue (s : Lock) (wac : Nat) : Lock :=
  if s.sleepersStart = some wac then
    { s with sleepersStart := s.nxt wac,
             sleepersEnd := if s.nxt wac = none then none else s.sleepersEnd }
  else
    removeFromQueueAux s wac s.nextFresh s.sleepersStart

/-- `unlockWriteWithMutex` (lines 334-347). -/
def unlockWriteWithMutex (s : Lock) : Lock × List Signal :=
  if 0 < s.readersWait then
    ({ s with phase := 0 }, [Signal.readersAll])
  else
    match s.sleepersStart with
    | some hd => ({ s with phase := 2 }, [Signal.writer hd])
    | none => ({ s with phase := 0 }, [])

/-- `unlockReadWithMutex` (lines 349-359).  `none` models the null-pointer
dereference `_sleepersStart->cond` when the queue is empty in phase 1. -/
def unlockReadWithMutex (s : Lock) : Option (Lock × List Signal) :=
  if s.readersRun - 1 = 0 ∧ s.phase = 1 then
    match s.sleepersStart with
    | some hd => some ({ s with readersRun := s.readersRun - 1, phase := 2 },
                       [Signal.writer hd])
    | none => none
  else
    some ({ s with readersRun := s.readersRun - 1 }, [])

/-- `unlockWrite` (lines 224-227). -/
def unlockWrite (s : Lock) : Lock × List Signal :=
  unlockWriteWithMutex s

/-- `unlockRead` (lines 277-280). -/
def unlockRead (s : Lock) : Option (Lock × List Signal) :=
  unlockReadWithMutex s

/-- `unlock` (lines 282-291): dispatch on the phase. -/
def unlock (s : Lock) : Option (Lock × List Signal) :=
  if s.phase = 3 then some (unlockWriteWithMutex s) else unlockReadWithMutex s

/-- Result of the entry section of `readLock` (lines 229-238): either the fast
path acquired the lock, or the caller registered in `_readersWait` and
suspended on `_cond` until `_phase == 0`. -/
inductive ReadEntry where
  | acquired : Lock → ReadEntry
  | waiting : Lock → ReadEntry

/-- Entry section of `readLock` (lines 229-238). -/
def readLockEntry (s : Lock) : ReadEntry :=
  if s.phase = 0 then ReadEntry.acquired { s with readersRun := s.readersRun + 1 }
  else ReadEntry.waiting { s with readersWait := s.readersWait + 1 }

/-- Resumption of `readLock` after its wait ends with `_phase == 0`
(lines 239-241). -/
def readLockResume (s : Lock) : Lock :=
  { s with readersWait := s.readersWait - 1, readersRun := s.readersRun + 1 }

/-- `tryReadLock` with no timeout (lines 244-251). -/
def tryReadLock (s : Lock) : Bool × Lock :=
  if s.phase = 0 then (true, { s with readersRun := s.readersRun + 1 })
  else (false, s)

/-- Result of the entry section of the timed `tryReadLock` (lines 253-267):
the fast path acquires without ever computing the deadline; otherwise the
caller registers in `_readersWait` and suspends with deadline `now + timeout`. -/
inductive TimedReadEntry where
  | acquired : Lock → TimedReadEntry
  | waiting : Lock → Int → TimedReadEntry

/-- Entry section of `tryReadLock(double timeout)` (lines 253-267).  Time is
abstracted to integers; `now` is the clock value read at line 262. -/
def tryReadLockTimedEntry (s : Lock) (timeout now : Int) : TimedReadEntry :=
  if s.phase = 0 then TimedReadEntry.acquired { s with readersRun := s.readersRun + 1 }
  else TimedReadEntry.waiting { s with readersWait := s.readersWait + 1 } (now + timeout)

/-- Timeout section of the timed `tryReadLock` (lines 268-271): the wait
expired with `_phase ≠ 0`; deregister and return `false`. -/
def tryReadLockTimedExpire (s : Lock) : Lock :=
  { s with readersWait := s.readersWait - 1 }

/-- Success section of the timed `tryReadLock` (lines 272-274): the wait ended
with `_phase == 0`. -/
def tryReadLockTimedSuccess (s : Lock) : Lock :=
  { s with readersWait := s.readersWait - 1, readersRun := s.readersRun + 1 }

/-- Result of the entry section of `writeLock` (lines 85-111): the fast path
acquired; or the caller installed its node as the sole queue entry and
continues in the same critical section already at the head; or it appended
behind others and suspended until its node is `_sleepersStart`. -/
inductive WriteEntry where
  | acquired : Lock → WriteEntry
  | atHead : Lock → Nat → WriteEntry
  | waitingForHead : Lock → Nat → WriteEntry

/-- Entry section of `writeLock` (lines 85-111).  `none` models the (asserted)
null dereference of `_sleepersEnd` when the queue pointers are inconsistent. -/
def writeLockEntry (s : Lock) : Option WriteEntry :=
  if s.phase = 0 ∧ s.readersRun = 0 then
    some (WriteEntry.acquired { s with phase := 3 })
  else
    match (getAlarmClock s).1.sleepersStart with
    | some _ =>
      match (getAlarmClock s).1.sleepersEnd with
      | some e =>
        some (WriteEntry.waitingForHead
          { (getAlarmClock s).1 with
              nxt := upd (getAlarmClock s).1.nxt e (some (getAlarmClock s).2),
              sleepersEnd := some (getAlarmClock s).2 }
          (getAlarmClock s).2)
      | none => none
    | none =>
      some (WriteEntry.atHead
        { (getAlarmClock s).1 with
            sleepersStart := some (getAlarmClock s).2,
            sleepersEnd := some (getAlarmClock s).2 }
        (getAlarmClock s).2)

/-- Head section of `writeLock` (lines 113-117), run once the caller's node is
the queue head (after the first wait, or directly after a sole-entry install):
announce the waiting writer to readers, then wait for `_phase == 2`. -/
def writeLockAtHead (s : Lock) : Lock :=
  if s.phase = 0 then { s with phase := 1 } else s

/-- Final section of `writeLock` (lines 122-129), run when the wait for
`_phase == 2` ends: take the lock, dequeue own (head) node, recycle it. -/
def writeLockFinish (s : Lock) (wac : Nat) : Lock :=
  returnAlarmClock (removeFromQueue { s with phase := 3 } wac) wac

/-- `tryWriteLock` with no timeout (lines 132-147). -/
def tryWriteLock (s : Lock) : Bool × Lock :=
  if s.sleepersStart ≠ none then (false, s)
  else if s.phase = 0 ∧ s.readersRun = 0 then (true, { s with phase := 3 })
  else (false, s)

/-- Result of the entry section of `tryWriteLock(double)` (lines 151-187):
fast-path acquisition (before the deadline is even computed), or the node is
installed as sole entry, and the caller continues at the head in the same
critical section, or the node is appended and the caller suspends with the
deadline until it is the head. -/
inductive TWEntry where
  | acquired : Lock → TWEntry
  | atHead : Lock → Nat → Int → TWEntry
  | waitingForHead : Lock → Nat → Int → TWEntry

/-- Entry section of `tryWriteLock(double timeout)` (lines 151-187).  `now` is
the clock value read at line 164; the deadline is `now + timeout`.  `none`
models the unchecked dereference `_sleepersEnd->next` at line 170 when the
queue pointers are inconsistent. -/
def tryWriteLockTimedEntry (s : Lock) (timeout now : Int) : Option TWEntry :=
  if s.phase = 0 ∧ s.readersRun = 0 then
    some (TWEntry.acquired { s with phase := 3 })
  else
    match (getAlarmClock s).1.sleepersStart with
    | some _ =>
      match (getAlarmClock s).1.sleepersEnd with
      | some e =>
        some (TWEntry.waitingForHead
          { (getAlarmClock s).1 with
              nxt := upd (getAlarmClock s).1.nxt e (some (getAlarmClock s).2),
              sleepersEnd := some (getAlarmClock s).2 }
          (getAlarmClock s).2 (now + timeout))
      | none => none
    | none =>
      some (TWEntry.atHead
        { (getAlarmClock s).1 with
            sleepersStart := some (getAlarmClock s).2,
            sleepersEnd := some (getAlarmClock s).2 }
        (getAlarmClock s).2 (now + timeout))

/-- Timeout section of the first wait of the timed `tryWriteLock`
(lines 174-180): the wait for becoming head expired; unlink own node, fail. -/
def tryWriteLockTimedWait1Expire (s : Lock) (wac : Nat) : Lock :=
  removeFromQueue s wac

/-- Result of the deadline re-check at the head (lines 189-199). -/
inductive THead where
  | timedOut : Lock → THead
  | waitPhase2 : Lock → THead

/-- Head section of the timed `tryWriteLock` (lines 189-199), run when the
caller's node is the queue head: if the deadline has already passed, unlink
the node and fail; otherwise announce to readers and wait for `_phase == 2`.
`now` is the clock value read at line 191. -/
def tryWriteLockTimedHeadCheck (s : Lock) (wac : Nat) (now deadline : Int) : THead :=
  if deadline < now then THead.timedOut (removeFromQueue s wac)
  else THead.waitPhase2 (if s.phase = 0 then { s with phase := 1 } else s)

/-- Timeout section of the second wait of the timed `tryWriteLock`
(lines 201-212): the wait for `_phase == 2` expired; unlink own node and
repair the phase if no writer is left waiting. -/
def tryWriteLockTimedWait2Expire (s : Lock) (wac : Nat) : Lock × List Signal :=
  let s1 := removeFromQueue s wac
  if s1.phase = 1 ∧ s1.sleepersStart = none then
    if 0 < s1.readersWait then ({ s1 with phase := 0 }, [Signal.readersAll])
    else ({ s1 with phase := 0 }, [])
  else (s1, [])

/-- Final section of the timed `tryWriteLock` (lines 214-221), run when the
wait for `_phase == 2` succeeds. -/
def tryWriteLockTimedFinish (s : Lock) (wac : Nat) : Lock :=
  returnAlarmClock (removeFromQueue { s with phase := 3 } wac) wac

/-- `Chain nxt o l`: starting from pointer `o` and following the `next` field,
one traverses exactly the nodes of `l` and ends at null.  This is the
abstraction of the raw writer queue (or free list) as a finite sequence. -/
inductive Chain (nxt : Nat → Option Nat) : Option Nat → List Nat → Prop where
  | nil : Chain nxt none []
  | cons {n : Nat} {l : List Nat} : Chain nxt (nxt n) l → Chain nxt (some n) (n :: l)

/-- The last element of a list, as an option (what `_sleepersEnd` must be). -/
def lastElem : List Nat → Option Nat
  | [] => none
  | [a] => some a
  | _ :: b :: t => lastElem (b :: t)

/-- The state invariants stated in the source comment (lines 54-63) and in the
spec: the phase constrains queue emptiness, running readers constrain the
phase, and the queue is a finite duplicate-free chain whose recorded tail is
its last element.  These must hold whenever the monitor mutex is free. -/
def Inv (s : Lock) : Prop :=
  (s.phase = 0 → s.sleepersStart = none) ∧
  ((s.phase = 1 ∨ s.phase = 2) → s.sleepersStart ≠ none) ∧
  (0 < s.readersRun → s.phase = 0 ∨ s.phase = 1) ∧
  ∃ l, Chain s.nxt s.sleepersStart l ∧ l.Nodup ∧ s.sleepersEnd = lastElem l

/-- Scenario for the writer-release invariant violation.  Writer `W1` takes
the free lock through the fast path of `writeLock`. -/
def c2s1 : Lock :=
  match writeLockEntry initial with
  | some (WriteEntry.acquired s) => s
  | _ => initial

/-- `W2` calls `writeLock` while `W1` holds the lock: it installs node `0` as
the sole queue entry and, already at the head, runs the head section (phase is
`3`, so nothing changes) before suspending until `_phase == 2`. -/
def c2s2 : Lock :=
  match writeLockEntry c2s1 with
  | some (WriteEntry.atHead s _) => writeLockAtHead s
  | _ => initial

/-- A reader calls `readLock` while `W1` still holds the lock: it registers in
`_readersWait` and suspends.  This is the state just before `W1` releases. -/
def c2pre : Lock :=
  match readLockEntry c2s2 with
  | ReadEntry.waiting s => s
  | _ => initial

/-- `W1` releases the write lock at `c2pre`. -/
def c2post : Lock :=
  (unlockWriteWithMutex c2pre).1

/-- Scenario for the timed-writer stuck-handoff bug.  A reader takes the free
lock through the fast path of `readLock`. -/
def c1s1 : Lock :=
  match readLockEntry initial with
  | ReadEntry.acquired s => s
  | _ => initial

/-- Writer `W1` calls the blocking `writeLock` while the reader runs: it
installs node `0` as sole queue entry and, at the head, sets the phase to `1`
before suspending until `_phase == 2`. -/
def c1s2 : Lock :=
  match writeLockEntry c1s1 with
  | some (WriteEntry.atHead s _) => writeLockAtHead s
  | _ => initial

/-- Writer `W2` calls `tryWriteLock(timeout)` with timeout `0` at clock `0`:
it appends node `1` behind `W1`'s node and suspends until it is the head,
carrying deadline `c1dl`. -/
def c1s3 : Lock :=
  match tryWriteLockTimedEntry c1s2 0 0 with
  | some (TWEntry.waitingForHead s _ _) => s
  | _ => initial

/-- The deadline `W2` computed on entry. -/
def c1dl : Int :=
  match tryWriteLockTimedEntry c1s2 0 0 with
  | some (TWEntry.waitingForHead _ _ d) => d
  | _ => 37

/-- The reader releases: it is the last runner and the phase is `1`, so the
phase moves to `2` and `W1`'s node is signalled. -/
def c1s4 : Lock :=
  match unlockReadWithMutex c1s3 with
  | some (s, _) => s
  | none => initial

/-- `W1` wakes with `_phase == 2`, takes the lock, dequeues node `0` (making
`W2`'s node `1` the head) and recycles it. -/
def c1s5 : Lock :=
  writeLockFinish c1s4 0

/-- `W1` releases: no reader waits and the queue is non-empty, so the phase
moves to `2` and the head node `1` (`W2`) is signalled. -/
def c1s6 : Lock :=
  (unlockWriteWithMutex c1s5).1

/-- `W2` wakes from its first wait with its node at the head and re-checks the
deadline at clock `1`, which is past its deadline. -/
def c1res : THead :=
  tryWriteLockTimedHeadCheck c1s6 1 1 c1dl

/-- The lock state `W2` leaves behind. -/
def c1final : Lock :=
  match c1res with
  | THead.timedOut s => s
  | THead.waitPhase2 s => s

/-- Whether `W2`'s call returned `false` (timed out) at the head re-check. -/
def c1timedOutB : Bool :=
  match c1res with
  | THead.timedOut _ => true
  | THead.waitPhase2 _ => false

/-- Witness state for C3: a writer holds the lock, one reader waits, one
writer is queued. -/
def c3w : Lock :=
  { readersRun := 0, readersWait := 1, sleepersStart := some 0, sleepersEnd := some 0,
    nxt := fun _ => none, freeList := none, phase := 3, nextFresh := 1 }

/-- Witness state for C4: the last running reader, with a writer queued and
the phase announcing waiting writers. -/
def c4w : Lock :=
  { readersRun := 1, readersWait := 0, sleepersStart := some 0, sleepersEnd := some 0,
    nxt := fun _ => none, freeList := none, phase := 1, nextFresh := 1 }

/-- Witness state for C6: a writer is queued (handoff pending) while no thread
holds the lock. -/
def c6w : Lock :=
  { readersRun := 0, readersWait := 0, sleepersStart := some 0, sleepersEnd := some 0,
    nxt := fun _ => none, freeList := none, phase := 2, nextFresh := 1 }

/-- Witness state for C7 and C8: writers waiting, one reader running. -/
def c8w : Lock :=
  { readersRun := 1, readersWait := 0, sleepersStart := some 0, sleepersEnd := some 0,
    nxt := fun _ => none, freeList := none, phase := 1, nextFresh := 1 }

/-- Witness state for C9: a three-node writer queue `[0, 1, 2]`. -/
def c9w : Lock :=
  { readersRun := 0, readersWait := 0, sleepersStart := some 0, sleepersEnd := some 2,
    nxt := fun x => if x = 0 then some 1 else if x = 1 then some 2 else none,
    freeList := none, phase := 1, nextFresh := 3 }

theorem chain_none_eq {nxt : Nat → Option Nat} {o : Option Nat}
    (h : Chain nxt o []) : o = none := by
  cases h; rfl

theorem chain_cons_inv {nxt : Nat → Option Nat} {o : Option Nat} {c : Nat} {t : List Nat}
    (h : Chain nxt o (c :: t)) : o = some c ∧ Chain nxt (nxt c) t := by
  cases h; exact ⟨rfl, by assumption⟩

theorem chain_upd_of_not_mem {nxt : Nat → Option Nat} {o : Option Nat} {l : List Nat}
    {p : Nat} {v : Option Nat} (h : Chain nxt o l) (hp : p ∉ l) :
    Chain (upd nxt p v) o l := by
  induction h with
  | nil => exact Chain.nil
  | @cons n l' h' ih =>
    have hne : n ≠ p := fun he => hp (he ▸ List.mem_cons_self n l')
    have hpl : p ∉ l' := fun hm => hp (List.mem_cons_of_mem _ hm)
    have : upd nxt p v n = nxt n := by simp [upd, hne]
    exact Chain.cons (this ▸ ih hpl)

theorem lastElem_cons_of_ne_nil {a : Nat} {l : List Nat} (h : l ≠ []) :
    lastElem (a :: l) = lastElem l := by
  cases l with
  | nil => exact absurd rfl h
  | cons b t => rfl

theorem lastElem_append {a b : List Nat} (h : b ≠ []) :
    lastElem (a ++ b) = lastElem b := by
  induction a with
  | nil => rfl
  | cons x a' ih =>
    have hne : a' ++ b ≠ [] := by
      intro hc
      rcases List.append_eq_nil.mp hc with ⟨_, h2⟩
      exact h h2
    rw [List.cons_append, lastElem_cons_of_ne_nil hne, ih]

theorem lastElem_concat (a : List Nat) (p : Nat) : lastElem (a ++ [p]) = some p := by
  rw [lastElem_append (by simp : ([p] : List Nat) ≠ [])]; rfl

theorem lastElem_mem {l : List Nat} {e : Nat} (h : lastElem l = some e) : e ∈ l := by
  induction l with
  | nil => simp [lastElem] at h
  | cons a t ih =>
    cases t with
    | nil =>
      simp [lastElem] at h
      simp [h]
    | cons b t' =>
      rw [lastElem_cons_of_ne_nil (by simp)] at h
      exact List.mem_cons_of_mem _ (ih h)

theorem lastElem_isSome {l : List Nat} (h : l ≠ []) : ∃ e, lastElem l = some e := by
  induction l with
  | nil => exact absurd rfl h
  | cons a t ih =>
    cases t with
    | nil => exact ⟨a, rfl⟩
    | cons b t' =>
      rcases ih (by simp) with ⟨e, he⟩
      exact ⟨e, by rw [lastElem_cons_of_ne_nil (by simp)]; exact he⟩

theorem eq_nil_or_concat2 (l : List Nat) : l = [] ∨ ∃ a p, l = a ++ [p] := by
  induction l with
  | nil => exact Or.inl rfl
  | cons x t ih =>
    rcases ih with h | ⟨a, p, h⟩
    · exact Or.inr ⟨[], x, by simp [h]⟩
    · exact Or.inr ⟨x :: a, p, by simp [h]⟩

/-- Appending a fresh node with null `next` behind the recorded last element
extends the chain by exactly that node. -/
theorem chain_snoc {nxt : Nat → Option Nat} {o : Option Nat} {l : List Nat} {e w : Nat}
    (h : Chain nxt o l) (hnd : l.Nodup) (hlast : lastElem l = some e)
    (hw : w ∉ l) (hwn : nxt w = none) :
    Chain (upd nxt e (some w)) o (l ++ [w]) := by
  induction h with
  | nil => simp [lastElem] at hlast
  | @cons n l' h' ih =>
    rcases List.nodup_cons.mp hnd with ⟨hn, hnd'⟩
    have hwn' : w ∉ l' := fun hm => hw (List.mem_cons_of_mem _ hm)
    have hwne : w ≠ n := fun he => hw (he ▸ List.mem_cons_self n l')
    cases l' with
    | nil =>
      have he : e = n := by simp [lastElem] at hlast; omega
      subst he
      rw [List.cons_append, List.nil_append]
      refine Chain.cons ?_
      have h1 : upd nxt e (some w) e = some w := by simp [upd]
      rw [h1]
      refine Chain.cons ?_
      have h2 : upd nxt e (some w) w = none := by simp [upd, hwne]; exact hwn
      rw [h2]
      exact Chain.nil
    | cons b t =>
      rw [lastElem_cons_of_ne_nil (by simp)] at hlast
      have hne : n ≠ e := fun hne => hn (hne ▸ lastElem_mem hlast)
      rw [List.cons_append]
      refine Chain.cons ?_
      have h1 : upd nxt e (some w) n = nxt n := by simp [upd, hne]
      rw [h1]
      exact ih hnd' hlast hwn'

/-- Updating the predecessor `p` of `wac` to point past it removes exactly
`wac` from the chain. -/
theorem chain_remove_mid {nxt : Nat → Option Nat} {wac p : Nat} {b : List Nat} :
    ∀ (a : List Nat) (o : Option Nat),
    Chain nxt o (a ++ p :: wac :: b) → p ∉ a → p ∉ b → p ≠ wac →
    Chain (upd nxt p (nxt wac)) o (a ++ p :: b) := by
  intro a
  induction a with
  | nil =>
    intro o h _ hpb hpw
    rw [List.nil_append] at h ⊢
    rcases chain_cons_inv h with ⟨ho, h1⟩
    rcases chain_cons_inv h1 with ⟨hnp, h2⟩
    subst ho
    refine Chain.cons ?_
    have hup : upd nxt p (nxt wac) p = nxt wac := by simp [upd]
    rw [hup]
    exact chain_upd_of_not_mem h2 hpb
  | cons x a' ih =>
    intro o h hpa hpb hpw
    rw [List.cons_append] at h ⊢
    rcases chain_cons_inv h with ⟨ho, h1⟩
    subst ho
    have hxp : x ≠ p := fun he => hpa (he ▸ List.mem_cons_self x a')
    have hpa' : p ∉ a' := fun hm => hpa (List.mem_cons_of_mem _ hm)
    refine Chain.cons ?_
    have hup : upd nxt p (nxt wac) x = nxt x := by simp [upd, hxp]
    rw [hup]
    exact ih (nxt x) h1 hpa' hpb hpw

/-- Walking a chain decomposition: the suffix starting after prefix `u` is
itself a chain from some pointer. -/
theorem chain_suffix {nxt : Nat → Option Nat} {v : List Nat} :
    ∀ (u : List Nat) (o : Option Nat), Chain nxt o (u ++ v) →
    ∃ q, Chain nxt q v := by
  intro u
  induction u with
  | nil => intro o h; exact ⟨o, h⟩
  | cons x u' ih =>
    intro o h
    rw [List.cons_append] at h
    rcases chain_cons_inv h with ⟨_, h1⟩
    exact ih (nxt x) h1

/-- Claim C1 is violated by the code: a bounded-wait `tryWriteLock(timeout)`
can return `false` and leave the phase stuck at `HANDOFF` with an empty writer
queue.  In the reachable, invariant-satisfying state `c1s6` (built above from
the fresh lock by an explicit interleaving of public operations), timed writer
`W2` holds the sole queue node `1` at the head with the phase at `HANDOFF`;
its deadline re-check at line 191 removes the node and returns `false`
without the phase repair that the second timeout branch (lines 203-211)
performs, leaving `HANDOFF` with an empty queue — a state the claim says a
timed-out call can never leave behind. -/
theorem c1_timed_writer_leaves_stuck_handoff :
    Inv c1s6 ∧ c1s6.phase = HANDOFF ∧ c1s6.sleepersStart = some 1 ∧
    c1timedOutB = true ∧
    c1final.phase = HANDOFF ∧ c1final.sleepersStart = none ∧
    c1final.sleepersEnd = none ∧ ¬ Inv c1final := by
  refine ⟨⟨?_, ?_, ?_, ⟨[1], ?_, ?_, ?_⟩⟩, rfl, rfl, rfl, rfl, rfl, rfl, ?_⟩
  · intro h; exact absurd h (by decide)
  · intro _; exact (by decide : c1s6.sleepersStart ≠ none)
  · intro h; exact absurd h (by decide)
  · exact Chain.cons Chain.nil
  · decide
  · rfl
  · rintro ⟨-, h2, -, -⟩
    exact h2 (Or.inr rfl) rfl

/-- Claim C2 is violated by the code: `unlockWrite` does not preserve the
invariant `phase == READING → writer queue empty` (stated in the source
comment, lines 54-56, as holding "at all times").  The state `c2pre` is
reachable from the fresh lock (writer `W1` acquires; writer `W2` queues; a
reader registers as waiting) and satisfies all the invariants; `W1`'s release
prefers the waiting reader and moves the phase to `READING` while `W2`'s node
is still queued, violating the invariant — and leaving `W2` asleep with no
signal to come. -/
theorem c2_unlockWrite_breaks_invariant :
    Inv c2pre ∧ c2pre.phase = WRITING ∧ 0 < c2pre.readersWait ∧
    c2pre.sleepersStart = some 0 ∧
    c2post.phase = READING ∧ c2post.sleepersStart = some 0 ∧ ¬ Inv c2post := by
  refine ⟨⟨?_, ?_, ?_, ⟨[0], ?_, ?_, ?_⟩⟩, rfl, by decide, rfl, rfl, rfl, ?_⟩
  · intro h; exact absurd h (by decide)
  · intro h; exact absurd h (by decide)
  · intro h; exact absurd h (by decide)
  · exact Chain.cons Chain.nil
  · decide
  · rfl
  · rintro ⟨h1, -, -, -⟩
    exact absurd (h1 rfl) (by decide)

/-- Claim C3: on writer release from phase `WRITING`, if any reader waits the
phase moves to `READING` and all waiting readers are woken; else if the writer
queue is non-empty the phase moves to `HANDOFF` and only the head node is
signalled; else the phase moves to `READING`.  Waiting readers are preferred
over a queued writer. -/
theorem c3_writer_release_policy (s : Lock) (_h : s.phase = WRITING) :
    (0 < s.readersWait →
      unlockWriteWithMutex s = ({ s with phase := READING }, [Signal.readersAll])) ∧
    (¬ 0 < s.readersWait → ∀ hd, s.sleepersStart = some hd →
      unlockWriteWithMutex s = ({ s with phase := HANDOFF }, [Signal.writer hd])) ∧
    (¬ 0 < s.readersWait → s.sleepersStart = none →
      unlockWriteWithMutex s = ({ s with phase := READING }, [])) := by
  refine ⟨?_, ?_, ?_⟩
  · intro hr
    unfold unlockWriteWithMutex
    rw [if_pos hr]
    rfl
  · intro hr hd hhd
    unfold unlockWriteWithMutex
    rw [if_neg hr, hhd]
    rfl
  · intro hr hhd
    unfold unlockWriteWithMutex
    rw [if_neg hr, hhd]
    rfl

/-- Witness for C3 at the concrete state `c3w` (a reader waits while a writer
is queued): release wakes the readers, not the queued writer. -/
theorem c3_writer_release_policy_witness :
    unlockWriteWithMutex c3w = ({ c3w with phase := READING }, [Signal.readersAll]) :=
  (c3_writer_release_policy c3w rfl).1 (by decide)

/-- Claim C4: on reader release, `readersRunning` is decremented; exactly when
it reaches zero with phase `READING_WRITERS_WAITING`, the phase moves to
`HANDOFF` and the head of the writer queue is signalled; in every other case
no field besides `readersRunning` changes and nothing is signalled. -/
theorem c4_reader_release_policy (s : Lock)
    (h : s.readersRun - 1 = 0 → s.phase = READING_WRITERS_WAITING →
      ∃ hd, s.sleepersStart = some hd) :
    ∃ s' sigs, unlockReadWithMutex s = some (s', sigs) ∧
      s'.readersRun = s.readersRun - 1 ∧
      (s.readersRun - 1 = 0 ∧ s.phase = READING_WRITERS_WAITING →
        s'.phase = HANDOFF ∧
        ∃ hd, s.sleepersStart = some hd ∧ sigs = [Signal.writer hd]) ∧
      (¬ (s.readersRun - 1 = 0 ∧ s.phase = READING_WRITERS_WAITING) →
        s'.phase = s.phase ∧ s'.readersWait = s.readersWait ∧
        s'.sleepersStart = s.sleepersStart ∧ s'.sleepersEnd = s.sleepersEnd ∧
        s'.nxt = s.nxt ∧ s'.freeList = s.freeList ∧
        s'.nextFresh = s.nextFresh ∧ sigs = []) := by
  by_cases hc : s.readersRun - 1 = 0 ∧ s.phase = 1
  · obtain ⟨hd, hhd⟩ := h hc.1 hc.2
    refine ⟨{ s with readersRun := s.readersRun - 1, phase := 2 },
            [Signal.writer hd], ?_, rfl, ?_, ?_⟩
    · unfold unlockReadWithMutex
      rw [if_pos hc, hhd]
    · intro _; exact ⟨rfl, hd, hhd, rfl⟩
    · intro hn; exact absurd hc hn
  · refine ⟨{ s with readersRun := s.readersRun - 1 }, [], ?_, rfl, ?_, ?_⟩
    · unfold unlockReadWithMutex
      rw [if_neg hc]
    · intro hcc; exact absurd hcc hc
    · intro _
      exact ⟨rfl, rfl, rfl, rfl, rfl, rfl, rfl, rfl⟩

/-- Witness for C4 at the concrete state `c4w` (last reader, writer queued):
the release hands off to the queued writer. -/
theorem c4_reader_release_policy_witness :
    ∃ s' sigs, unlockReadWithMutex c4w = some (s', sigs) ∧
      s'.readersRun = c4w.readersRun - 1 ∧ s'.phase = HANDOFF ∧
      sigs = [Signal.writer 0] := by
  obtain ⟨s', sigs, he, hr, htrig, -⟩ :=
    c4_reader_release_policy c4w (fun _ _ => ⟨0, rfl⟩)
  obtain ⟨hp, hd, hhd, hs⟩ := htrig (by constructor <;> decide)
  have h0 : some (0 : Nat) = some hd := hhd
  cases Option.some.inj h0
  exact ⟨s', sigs, he, hr, hp, hs⟩

/-- Claim C6: `tryWriteLock` (no wait) succeeds exactly when the writer queue
is empty, the phase is `READING` and no reader runs; on success its only state
change is setting the phase to `WRITING`, and on failure it changes nothing.
In particular it never jumps over a queued writer. -/
theorem c6_tryWriteLock_exact (s : Lock) :
    ((tryWriteLock s).1 = true ↔
      s.sleepersStart = none ∧ s.phase = READING ∧ s.readersRun = 0) ∧
    ((tryWriteLock s).1 = true → (tryWriteLock s).2 = { s with phase := WRITING }) ∧
    ((tryWriteLock s).1 = false → (tryWriteLock s).2 = s) := by
  unfold tryWriteLock
  by_cases h1 : s.sleepersStart = none
  · by_cases h2 : s.phase = 0 ∧ s.readersRun = 0
    · rw [if_neg (by simp [h1]), if_pos h2]
      exact ⟨by simp [h1, h2.1, h2.2, READING], fun _ => rfl,
             fun hc => Bool.noConfusion hc⟩
    · rw [if_neg (by simp [h1]), if_neg h2]
      refine ⟨?_, fun hc => Bool.noConfusion hc, fun _ => rfl⟩
      simp only [READING]
      constructor
      · intro hc; exact Bool.noConfusion hc
      · rintro ⟨-, hp, hr⟩; exact absurd ⟨hp, hr⟩ h2
  · rw [if_pos (by simp [h1])]
    refine ⟨?_, fun hc => Bool.noConfusion hc, fun _ => rfl⟩
    constructor
    · intro hc; exact Bool.noConfusion hc
    · rintro ⟨hs, -, -⟩; exact absurd hs h1

/-- Witness for C6 at the concrete state `c6w`: a writer is queued and the
lock is otherwise free, yet `tryWriteLock` refuses and changes nothing. -/
theorem c6_tryWriteLock_exact_witness :
    (tryWriteLock c6w).1 = false ∧ (tryWriteLock c6w).2 = c6w := by
  obtain ⟨hiff, -, hfail⟩ := c6_tryWriteLock_exact c6w
  have hfalse : (tryWriteLock c6w).1 = false := by
    cases hb : (tryWriteLock c6w).1
    · rfl
    · obtain ⟨hs, -, -⟩ := hiff.mp hb
      exact absurd hs (by decide)
  exact ⟨hfalse, hfail hfalse⟩

/-- Claim C7: `tryReadLock` (no wait) returns `true` and increments
`readersRunning` exactly when the phase is `READING`; otherwise it returns
`false` and changes nothing. -/
theorem c7_tryReadLock_exact (s : Lock) :
    ((tryReadLock s).1 = true ↔ s.phase = READING) ∧
    (s.phase = READING →
      tryReadLock s = (true, { s with readersRun := s.readersRun + 1 })) ∧
    (s.phase ≠ READING → tryReadLock s = (false, s)) := by
  unfold tryReadLock
  by_cases h : s.phase = 0
  · rw [if_pos h]
    exact ⟨by simp [h, READING], fun _ => rfl, fun hc => absurd h hc⟩
  · rw [if_neg h]
    exact ⟨by simp [h, READING], fun hc => absurd hc h, fun _ => rfl⟩

/-- Witness for C7 at the concrete state `c8w` (phase `1`): the try fails and
leaves the state unchanged. -/
theorem c7_tryReadLock_exact_witness :
    tryReadLock c8w = (false, c8w) :=
  (c7_tryReadLock_exact c8w).2.2 (by decide)

/-- Claim C8: the timed `tryReadLock`, entered while the phase is not
`READING`, registers the caller by incrementing `readersWaiting`; on expiry it
decrements `readersWaiting` and leaves `readersRunning` untouched; on success
it performs exactly the bookkeeping of the blocking `readLock`'s resumption
(decrement `readersWaiting`, increment `readersRunning`). -/
theorem c8_timed_read_bookkeeping (s : Lock) (timeout now : Int)
    (h : s.phase ≠ READING) :
    tryReadLockTimedEntry s timeout now =
      TimedReadEntry.waiting { s with readersWait := s.readersWait + 1 } (now + timeout) ∧
    (∀ t : Lock, tryReadLockTimedExpire t = { t with readersWait := t.readersWait - 1 }) ∧
    (∀ t : Lock, (tryReadLockTimedExpire t).readersRun = t.readersRun) ∧
    (∀ t : Lock, tryReadLockTimedSuccess t = readLockResume t) := by
  refine ⟨?_, fun _ => rfl, fun _ => rfl, fun _ => rfl⟩
  have h' : ¬ s.phase = 0 := h
  unfold tryReadLockTimedEntry
  rw [if_neg h']

/-- Witness for C8 at the concrete state `c8w` (phase `1`). -/
theorem c8_timed_read_bookkeeping_witness :
    tryReadLockTimedEntry c8w 5 0 =
      TimedReadEntry.waiting { c8w with readersWait := c8w.readersWait + 1 } (0 + 5) ∧
    (tryReadLockTimedExpire c8w).readersRun = c8w.readersRun := by
  obtain ⟨he, -, hrun, -⟩ := c8_timed_read_bookkeeping c8w 5 0 (by decide)
  exact ⟨he, hrun c8w⟩

/-- Claim C10: the timed try-acquire fast paths never consult the deadline:
for every timeout (zero and negative included), the timed `tryWriteLock`
succeeds immediately when the phase is `READING` with no reader running, and
the timed `tryReadLock` succeeds immediately when the phase is `READING`. -/
theorem c10_fast_paths_ignore_deadline (s : Lock) (timeout now : Int) :
    (s.phase = READING ∧ s.readersRun = 0 →
      tryWriteLockTimedEntry s timeout now =
        some (TWEntry.acquired { s with phase := WRITING })) ∧
    (s.phase = READING →
      tryReadLockTimedEntry s timeout now =
        TimedReadEntry.acquired { s with readersRun := s.readersRun + 1 }) := by
  constructor
  · intro h
    have h' : s.phase = 0 ∧ s.readersRun = 0 := h
    unfold tryWriteLockTimedEntry
    rw [if_pos h']
    rfl
  · intro h
    have h' : s.phase = 0 := h
    unfold tryReadLockTimedEntry
    rw [if_pos h']

/-- Witness for C10 with a negative timeout on the fresh lock: both fast
paths still succeed. -/
theorem c10_fast_paths_ignore_deadline_witness :
    tryWriteLockTimedEntry initial (-5) 0 =
      some (TWEntry.acquired { initial with phase := WRITING }) ∧
    tryReadLockTimedEntry initial (-5) 0 =
      TimedReadEntry.acquired { initial with readersRun := initial.readersRun + 1 } :=
  ⟨(c10_fast_paths_ignore_deadline initial (-5) 0).1 ⟨rfl, rfl⟩,
   (c10_fast_paths_ignore_deadline initial (-5) 0).2 rfl⟩

/-- The scan of `removeFromQueue` touches only the pointer fields. -/
theorem removeFromQueueAux_scalars (s : Lock) (wac : Nat) :
    ∀ (fuel : Nat) (o : Option Nat),
    (removeFromQueueAux s wac fuel o).phase = s.phase ∧
    (removeFromQueueAux s wac fuel o).readersRun = s.readersRun ∧
    (removeFromQueueAux s wac fuel o).readersWait = s.readersWait ∧
    (removeFromQueueAux s wac fuel o).freeList = s.freeList ∧
    (removeFromQueueAux s wac fuel o).nextFresh = s.nextFresh ∧
    (removeFromQueueAux s wac fuel o).sleepersStart = s.sleepersStart := by
  intro fuel
  induction fuel with
  | zero =>
    intro o
    cases o <;> exact ⟨rfl, rfl, rfl, rfl, rfl, rfl⟩
  | succ f ih =>
    intro o
    cases o with
    | none => exact ⟨rfl, rfl, rfl, rfl, rfl, rfl⟩
    | some w =>
      by_cases h : s.nxt w = some wac
      · unfold removeFromQueueAux
        rw [if_pos h]
        exact ⟨rfl, rfl, rfl, rfl, rfl, rfl⟩
      · unfold removeFromQueueAux
        rw [if_neg h]
        exact ih (s.nxt w)

/-- `removeFromQueue` touches only the pointer fields. -/
theorem removeFromQueue_scalars (s : Lock) (wac : Nat) :
    (removeFromQueue s wac).phase = s.phase ∧
    (removeFromQueue s wac).readersRun = s.readersRun ∧
    (removeFromQueue s wac).readersWait = s.readersWait ∧
    (removeFromQueue s wac).freeList = s.freeList ∧
    (removeFromQueue s wac).nextFresh = s.nextFresh := by
  unfold removeFromQueue
  by_cases h : s.sleepersStart = some wac
  · rw [if_pos h]
    exact ⟨rfl, rfl, rfl, rfl, rfl⟩
  · rw [if_neg h]
    obtain ⟨h1, h2, h3, h4, h5, -⟩ := removeFromQueueAux_scalars s wac s.nextFresh s.sleepersStart
    exact ⟨h1, h2, h3, h4, h5⟩

/-- If `wac` is not on the chain starting at `o`, the scan finds nothing and
returns the state unchanged. -/
theorem removeFromQueueAux_not_mem (s : Lock) (wac : Nat) :
    ∀ (m : List Nat) (o : Option Nat) (fuel : Nat),
    Chain s.nxt o m → wac ∉ m →
    removeFromQueueAux s wac fuel o = s := by
  intro m
  induction m with
  | nil =>
    intro o fuel hc _
    rw [chain_none_eq hc]
    cases fuel <;> rfl
  | cons c t ih =>
    intro o fuel hc hm
    rcases chain_cons_inv hc with ⟨ho, hc'⟩
    subst ho
    have hnn : s.nxt c ≠ some wac := by
      intro hcon
      cases t with
      | nil => exact absurd (chain_none_eq (hcon ▸ hc')) (by simp)
      | cons d t' =>
        rcases chain_cons_inv hc' with ⟨hd, -⟩
        rw [hcon] at hd
        have hwd : wac = d := Option.some.inj hd
        exact hm (by rw [hwd]; simp)
    cases fuel with
    | zero => rfl
    | succ f =>
      unfold removeFromQueueAux
      rw [if_neg hnn]
      exact ih (s.nxt c) f hc' (fun hm' => hm (List.mem_cons_of_mem _ hm'))

/-- If the chain from `o` is `a ++ p :: wac :: b`, the scan finds the
predecessor `p` and splices `wac` out, fixing `_sleepersEnd` when `wac` was
the last node. -/
theorem removeFromQueueAux_found (s : Lock) (wac : Nat) (b : List Nat) :
    ∀ (a : List Nat) (p : Nat) (o : Option Nat) (fuel : Nat),
    Chain s.nxt o (a ++ p :: wac :: b) → (a ++ p :: wac :: b).Nodup →
    a.length + 1 ≤ fuel →
    removeFromQueueAux s wac fuel o =
      { s with nxt := upd s.nxt p (s.nxt wac),
               sleepersEnd := if s.nxt wac = none then some p else s.sleepersEnd } := by
  intro a
  induction a with
  | nil =>
    intro p o fuel hc _ hfuel
    rw [List.nil_append] at hc
    rcases chain_cons_inv hc with ⟨ho, hc'⟩
    subst ho
    rcases chain_cons_inv hc' with ⟨hnp, -⟩
    cases fuel with
    | zero => omega
    | succ f =>
      unfold removeFromQueueAux
      rw [if_pos hnp]
  | cons x a' ih =>
    intro p o fuel hc hnd hfuel
    rw [List.cons_append] at hc hnd
    rcases chain_cons_inv hc with ⟨ho, hc'⟩
    subst ho
    rcases List.nodup_cons.mp hnd with ⟨hx, hnd'⟩
    have hnn : s.nxt x ≠ some wac := by
      intro hcon
      cases a' with
      | nil =>
        rw [List.nil_append] at hc' hnd'
        rcases chain_cons_inv hc' with ⟨hd, -⟩
        rw [hcon] at hd
        have hwp : wac = p := Option.some.inj hd
        rcases List.nodup_cons.mp hnd' with ⟨hp, -⟩
        exact hp (by rw [← hwp]; simp)
      | cons y a'' =>
        rw [List.cons_append] at hc' hnd'
        rcases chain_cons_inv hc' with ⟨hd, -⟩
        rw [hcon] at hd
        have hwy : wac = y := Option.some.inj hd
        rcases List.nodup_cons.mp hnd' with ⟨hy, -⟩
        exact hy (by rw [← hwy]; simp)
    cases fuel with
    | zero => omega
    | succ f =>
      unfold removeFromQueueAux
      rw [if_neg hnn]
      exact ih p (s.nxt x) f hc' hnd' (by simp at hfuel ⊢; omega)

/-- Claim C9: `removeFromQueue` is total and exact.  Given a well-formed queue
(chain `l` from `_sleepersStart`, duplicate-free, `_sleepersEnd` its last
element, length bounded by the allocation counter used as scan fuel): the
counters, phase and free list are never touched; if the node occurs in the
queue (`l = a ++ wac :: b`), exactly that node is removed — the remaining
chain is `a ++ b`, the tail pointer is the last element of `a ++ b` (the
predecessor when the last node was removed), and head and tail become null
exactly when the queue empties; if the node is not in the queue, the state is
returned completely unchanged. -/
theorem c9_removeFromQueue_exact (s : Lock) (wac : Nat) (l : List Nat)
    (hc : Chain s.nxt s.sleepersStart l) (hnd : l.Nodup)
    (hend : s.sleepersEnd = lastElem l) (hfuel : l.length ≤ s.nextFresh) :
    ((removeFromQueue s wac).phase = s.phase ∧
     (removeFromQueue s wac).readersRun = s.readersRun ∧
     (removeFromQueue s wac).readersWait = s.readersWait ∧
     (removeFromQueue s wac).freeList = s.freeList ∧
     (removeFromQueue s wac).nextFresh = s.nextFresh) ∧
    (∀ a b, l = a ++ wac :: b →
      Chain (removeFromQueue s wac).nxt (removeFromQueue s wac).sleepersStart (a ++ b) ∧
      (removeFromQueue s wac).sleepersEnd = lastElem (a ++ b) ∧
      (a ++ b = [] → (removeFromQueue s wac).sleepersStart = none ∧
        (removeFromQueue s wac).sleepersEnd = none)) ∧
    (wac ∉ l → removeFromQueue s wac = s) := by
  refine ⟨removeFromQueue_scalars s wac, ?_, ?_⟩
  · intro a b hl
    subst hl
    rcases eq_nil_or_concat2 a with ha | ⟨a', p, ha⟩
    · subst ha
      rw [List.nil_append] at hc hend ⊢
      rcases chain_cons_inv hc with ⟨hstart, hc'⟩
      have hr : removeFromQueue s wac =
          { s with sleepersStart := s.nxt wac,
                   sleepersEnd := if s.nxt wac = none then none else s.sleepersEnd } := by
        unfold removeFromQueue
        rw [if_pos hstart]
      rw [hr]
      refine ⟨hc', ?_, ?_⟩
      · cases b with
        | nil =>
          have hn : s.nxt wac = none := chain_none_eq hc'
          simp [hn, lastElem]
        | cons y b' =>
          rcases chain_cons_inv hc' with ⟨hy, -⟩
          simp only [hy]
          rw [if_neg (by simp)]
          rw [hend, lastElem_cons_of_ne_nil (by simp)]
      · intro hb
        subst hb
        have hn : s.nxt wac = none := chain_none_eq hc'
        simp [hn]
    · subst ha
      have hl2 : (a' ++ [p]) ++ wac :: b = a' ++ p :: wac :: b := by simp
      rw [hl2] at hc hnd hend hfuel
      -- facts from Nodup
      rcases List.nodup_append.mp hnd with ⟨-, hnd2, hdisj⟩
      rcases List.nodup_cons.mp hnd2 with ⟨hpm, -⟩
      have hpa' : p ∉ a' := fun hm => hdisj hm (List.mem_cons_self p _)
      have hpb : p ∉ b := fun hm => hpm (List.mem_cons_of_mem _ hm)
      have hpw : p ≠ wac := fun he => hpm (he ▸ List.mem_cons_self wac b)
      -- the head of the queue is not wac
      have hne : ¬ s.sleepersStart = some wac := by
        cases a' with
        | nil =>
          rw [List.nil_append] at hc
          rcases chain_cons_inv hc with ⟨hstart, -⟩
          rw [hstart]
          intro hcon
          exact hpw (Option.some.inj hcon)
        | cons x a'' =>
          rw [List.cons_append] at hc
          rcases chain_cons_inv hc with ⟨hstart, -⟩
          rcases List.nodup_cons.mp (by rw [List.cons_append] at hnd; exact hnd)
            with ⟨hx, -⟩
          rw [hstart]
          intro hcon
          have hxw : x = wac := Option.some.inj hcon
          exact hx (by
            rw [hxw]
            exact List.mem_append_right _ (List.mem_cons_of_mem _ (List.mem_cons_self _ _)))
      have hr : removeFromQueue s wac =
          { s with nxt := upd s.nxt p (s.nxt wac),
                   sleepersEnd := if s.nxt wac = none then some p
                                  else s.sleepersEnd } := by
        unfold removeFromQueue
        rw [if_neg hne]
        exact removeFromQueueAux_found s wac b a' p s.sleepersStart s.nextFresh hc hnd
          (by simp at hfuel; omega)
      -- the suffix chain after wac
      have hsuf : Chain s.nxt (s.nxt wac) b := by
        obtain ⟨q, hq⟩ := chain_suffix a' s.sleepersStart hc
        rcases chain_cons_inv hq with ⟨-, hq1⟩
        rcases chain_cons_inv hq1 with ⟨-, hq2⟩
        exact hq2
      rw [hr]
      have hab : (a' ++ [p]) ++ b = a' ++ p :: b := by simp
      refine ⟨?_, ?_, ?_⟩
      · rw [hab]
        exact chain_remove_mid a' s.sleepersStart hc hpa' hpb hpw
      · cases b with
        | nil =>
          have hn : s.nxt wac = none := chain_none_eq hsuf
          simp [hn, lastElem_concat]
        | cons y b' =>
          rcases chain_cons_inv hsuf with ⟨hy, -⟩
          simp only [hy]
          rw [if_neg (by simp)]
          rw [hend, lastElem_append (b := p :: wac :: y :: b') (by simp),
              lastElem_cons_of_ne_nil (by simp), lastElem_cons_of_ne_nil (by simp),
              lastElem_append (b := y :: b') (by simp)]
      · intro hcon
        exact absurd hcon (by simp)
  · intro hm
    have hne : ¬ s.sleepersStart = some wac := by
      intro hcon
      cases l with
      | nil => exact absurd (hcon ▸ chain_none_eq hc) (by simp)
      | cons c t =>
        rcases chain_cons_inv hc with ⟨hstart, -⟩
        rw [hcon] at hstart
        have : wac = c := Option.some.inj hstart
        exact hm (by rw [this]; simp)
    unfold removeFromQueue
    rw [if_neg hne]
    exact removeFromQueueAux_not_mem s wac l s.sleepersStart s.nextFresh hc hm

/-- `getAlarmClock` leaves the queue pointers, phase and counters alone, and
the returned node has a null `next`: its heap effect is exactly
`upd s.nxt wac none` (clearing the popped free-list head's link, or the
constructor's `next(nullptr)` for a fresh node). -/
theorem getAlarmClock_spec (s : Lock) :
    (getAlarmClock s).1.sleepersStart = s.sleepersStart ∧
    (getAlarmClock s).1.sleepersEnd = s.sleepersEnd ∧
    (getAlarmClock s).1.phase = s.phase ∧
    (getAlarmClock s).1.readersRun = s.readersRun ∧
    (getAlarmClock s).1.readersWait = s.readersWait ∧
    (getAlarmClock s).1.nxt = upd s.nxt (getAlarmClock s).2 none := by
  cases h : s.freeList with
  | none => simp [getAlarmClock, h]
  | some n => simp [getAlarmClock, h]

/-- Claim C5: the blocking `writeLock` follows the claimed steps.  (1) With
the lock free (phase `READING`, no reader running) it sets the phase to
`WRITING` and returns with no node allocated or queued.  (2) Otherwise the
node it uses comes from the free list when one is there, and is freshly
created otherwise.  (3) With an empty queue the node is installed as the sole
entry (the caller is immediately at the head).  (4) With a non-empty queue
the node is appended at the tail — the new chain is `l ++ [node]` — and the
caller suspends until its node is the head.  (5) Once at the head, a `READING`
phase is switched to `READING_WRITERS_WAITING`; then the caller suspends
until the phase is `HANDOFF`.  (6) On that wake it sets the phase to
`WRITING`, removes its node from the queue head and returns it to the free
list. -/
theorem c5_writeLock_algorithm (s : Lock) (l : List Nat)
    (hc : Chain s.nxt s.sleepersStart l) (hnd : l.Nodup)
    (hend : s.sleepersEnd = lastElem l)
    (hfresh : (getAlarmClock s).2 ∉ l) :
    (s.phase = READING ∧ s.readersRun = 0 →
      writeLockEntry s = some (WriteEntry.acquired { s with phase := WRITING })) ∧
    ((s.freeList = none → (getAlarmClock s).2 = s.nextFresh) ∧
     ∀ n, s.freeList = some n → (getAlarmClock s).2 = n) ∧
    (¬ (s.phase = READING ∧ s.readersRun = 0) → s.sleepersStart = none →
      ∃ s1, writeLockEntry s = some (WriteEntry.atHead s1 (getAlarmClock s).2) ∧
        Chain s1.nxt s1.sleepersStart [(getAlarmClock s).2] ∧
        s1.sleepersEnd = some (getAlarmClock s).2 ∧
        s1.phase = s.phase ∧ s1.readersRun = s.readersRun ∧
        s1.readersWait = s.readersWait) ∧
    (¬ (s.phase = READING ∧ s.readersRun = 0) → s.sleepersStart ≠ none →
      ∃ s1, writeLockEntry s = some (WriteEntry.waitingForHead s1 (getAlarmClock s).2) ∧
        Chain s1.nxt s1.sleepersStart (l ++ [(getAlarmClock s).2]) ∧
        s1.sleepersEnd = some (getAlarmClock s).2 ∧
        s1.phase = s.phase ∧ s1.readersRun = s.readersRun ∧
        s1.readersWait = s.readersWait) ∧
    (∀ t : Lock,
      (t.phase = READING →
        writeLockAtHead t = { t with phase := READING_WRITERS_WAITING }) ∧
      (t.phase ≠ READING → writeLockAtHead t = t)) ∧
    (∀ t : Lock, ∀ w, t.sleepersStart = some w →
      (writeLockFinish t w).phase = WRITING ∧
      (writeLockFinish t w).sleepersStart = t.nxt w ∧
      (writeLockFinish t w).freeList = some w ∧
      (writeLockFinish t w).nxt w = t.freeList) := by
  obtain ⟨hq1, hq2, hq3, hq4, hq5, hq6⟩ := getAlarmClock_spec s
  refine ⟨?_, ?_, ?_, ?_, ?_, ?_⟩
  · intro h
    have h' : s.phase = 0 ∧ s.readersRun = 0 := h
    unfold writeLockEntry
    rw [if_pos h']
    rfl
  · constructor
    · intro h
      simp only [getAlarmClock, h]
    · intro n h
      simp only [getAlarmClock, h]
  · intro hslow hstart
    have h' : ¬ (s.phase = 0 ∧ s.readersRun = 0) := hslow
    unfold writeLockEntry
    rw [if_neg h']
    rw [hq1, hstart]
    refine ⟨_, rfl, ?_, rfl, hq3, hq4, hq5⟩
    refine Chain.cons ?_
    have hwn : (getAlarmClock s).1.nxt (getAlarmClock s).2 = none := by
      rw [hq6]; simp [upd]
    rw [hwn]
    exact Chain.nil
  · intro hslow hstart
    obtain ⟨y, hy⟩ := Option.ne_none_iff_exists'.mp hstart
    have h' : ¬ (s.phase = 0 ∧ s.readersRun = 0) := hslow
    have hl : l ≠ [] := by
      intro hl0
      subst hl0
      rw [chain_none_eq hc] at hy
      cases hy
    obtain ⟨e, he⟩ := lastElem_isSome hl
    unfold writeLockEntry
    rw [if_neg h']
    rw [hq1, hy, hq2, hend, he]
    refine ⟨_, rfl, ?_, rfl, hq3, hq4, hq5⟩
    rw [hq1, hq6]
    have hstep : Chain (upd s.nxt (getAlarmClock s).2 none) s.sleepersStart l :=
      chain_upd_of_not_mem hc hfresh
    exact chain_snoc hstep hnd he hfresh (by simp [upd])
  · intro t
    constructor
    · intro h
      have h' : t.phase = 0 := h
      unfold writeLockAtHead
      rw [if_pos h']
      rfl
    · intro h
      have h' : ¬ t.phase = 0 := h
      unfold writeLockAtHead
      rw [if_neg h']
  · intro t w hw
    have hw' : ({ t with phase := 3 } : Lock).sleepersStart = some w := hw
    have hr : removeFromQueue { t with phase := 3 } w =
        { t with phase := 3, sleepersStart := t.nxt w,
                 sleepersEnd := if t.nxt w = none then none else t.sleepersEnd } := by
      unfold removeFromQueue
      rw [if_pos hw']
    unfold writeLockFinish returnAlarmClock
    rw [hr]
    exact ⟨rfl, rfl, rfl, by simp [upd]⟩

/-- Witness for C5 on the fresh lock: the fast path acquires without
allocating, and the head section announces the waiting writer. -/
theorem c5_writeLock_algorithm_witness :
    writeLockEntry initial = some (WriteEntry.acquired { initial with phase := WRITING }) ∧
    writeLockAtHead initial = { initial with phase := READING_WRITERS_WAITING } := by
  obtain ⟨h1, -, -, -, h5, -⟩ :=
    c5_writeLock_algorithm initial [] Chain.nil List.nodup_nil rfl (by simp)
  exact ⟨h1 ⟨rfl, rfl⟩, (h5 initial).1 rfl⟩

/-- Witness for C9 at the concrete three-node queue `c9w`: removing the
interior node `1` relinks `0` to `2`, keeps the tail at `2`, and touches no
counter. -/
theorem c9_removeFromQueue_exact_witness :
    Chain (removeFromQueue c9w 1).nxt (removeFromQueue c9w 1).sleepersStart ([0] ++ [2]) ∧
    (removeFromQueue c9w 1).sleepersEnd = lastElem ([0] ++ [2]) ∧
    (removeFromQueue c9w 1).phase = c9w.phase := by
  obtain ⟨⟨hp, -⟩, hocc, -⟩ :=
    c9_removeFromQueue_exact c9w 1 [0, 1, 2]
      (Chain.cons (Chain.cons (Chain.cons Chain.nil)))
      (by decide) rfl (by decide)
  obtain ⟨h1, h2, -⟩ := hocc [0] [2] rfl
  exact ⟨h1, h2, hp⟩

end PhaseFair
